import Mathlib

/-!
Verification of the blockchain read/write interaction layer specified for the
Nois3/nextjs repository, against the repository's demo application code
(src/app/swap/page.tsx, src/contexts/BaseContext.tsx) and the concrete code
recommendations in its documentation (src/docs/fundamentals/transactions.md,
the multicall documentation).

The demo pages compute quotes and slippage factors with JavaScript numbers,
which are IEEE-754 binary64 floating-point values.  We embed that arithmetic
exactly: a JavaScript number is represented by the rational number it denotes,
and every arithmetic operation is followed by correct rounding to the nearest
binary64-representable rational (ties to even).  All inputs handled by the
page lie well inside the normal range of binary64, so overflow and subnormal
behaviour never arise for the values reasoned about here.
-/

/-- Powers of two with integer exponent, as rationals.  Used to describe the
binary64 value grid. -/
def pow2z (e : ℤ) : ℚ :=
  match e with
  | Int.ofNat n => (2 : ℚ) ^ n
  | Int.negSucc n => ((2 : ℚ) ^ (n + 1))⁻¹

/-- Round a rational to the nearest integer, ties to even: the rounding used
by IEEE-754 binary64 arithmetic (JavaScript numbers). -/
def rne (q : ℚ) : ℤ :=
  if q - (⌊q⌋ : ℚ) < 1 / 2 then ⌊q⌋
  else if (1 : ℚ) / 2 < q - (⌊q⌋ : ℚ) then ⌊q⌋ + 1
  else if ⌊q⌋ % 2 = 0 then ⌊q⌋ else ⌊q⌋ + 1

/-- Fuelled base-2 logarithm on naturals (floor).  The fuel makes the
recursion structural. -/
def lg2 : ℕ → ℕ → ℕ
  | 0, _ => 0
  | fuel + 1, n => if n < 2 then 0 else lg2 fuel (n / 2) + 1

/-- Floor of the base-2 logarithm of a positive natural number. -/
def log2N (n : ℕ) : ℕ := lg2 n n

/-- Floor of the base-2 logarithm of a positive rational. -/
def floorLog2 (q : ℚ) : ℤ :=
  if 1 ≤ q then (log2N ⌊q⌋.toNat : ℤ)
  else
    let k := log2N ⌊q⁻¹⌋.toNat
    if q * pow2z k = 1 then -(k : ℤ) else -(k : ℤ) - 1

/-- Correct rounding of a rational to the nearest binary64 value (normal
range), ties to even: the exact semantics of producing a JavaScript number
from a real quantity.  The significand has 53 bits, so a positive value with
floor-log2 e is scaled to the integer window 2^52 ≤ m ≤ 2^53 and rounded
there. -/
def roundDouble (q : ℚ) : ℚ :=
  if q = 0 then 0
  else if 0 < q then
    (rne (q * pow2z (52 - floorLog2 q)) : ℚ) * pow2z (floorLog2 q - 52)
  else
    -((rne (-q * pow2z (52 - floorLog2 (-q))) : ℚ) * pow2z (floorLog2 (-q) - 52))

/-- JavaScript double multiplication: exact product, then correct rounding. -/
def dmul (a b : ℚ) : ℚ := roundDouble (a * b)

/-- JavaScript double subtraction: exact difference, then correct rounding. -/
def dsub (a b : ℚ) : ℚ := roundDouble (a - b)

/-- JavaScript parseFloat (and number-literal conversion) of a finite decimal
value: the decimal's exact rational value, correctly rounded to binary64. -/
def jsParse (q : ℚ) : ℚ := roundDouble q

/-- Composition of JavaScript Number.prototype.toFixed(d) with viem's
parseUnits(·, d), as used by the swap page to turn a floating-point output
amount into a bigint in the token's smallest unit.  toFixed rounds the exact
value of the double to d decimal places, half away from zero for positive
values (ECMA-262 picks the larger candidate on ties), and parseUnits of the
resulting d-place decimal string returns exactly that many smallest units. -/
def jsToFixedUnits (v : ℚ) (d : ℕ) : ℤ := ⌊v * 10 ^ d + 1 / 2⌋

/-- Tokens offered by the educational swap page (src/app/swap/page.tsx). -/
inductive TokenKey
  | WETH
  | USDC
  | DAI
  | USDT
deriving DecidableEq

/-- Token decimals from the TOKENS table of the swap page. -/
def decimalsOf : TokenKey → ℕ
  | .WETH => 18
  | .USDC => 6
  | .DAI => 18
  | .USDT => 6

/-- Mock price table of the swap page (mockPrices), including the JavaScript
fallback rate of 1 for pairs absent from the table (the same-token
diagonal). -/
def mockRate : TokenKey → TokenKey → ℚ
  | .WETH, .USDC => 2000
  | .WETH, .DAI => 2000
  | .WETH, .USDT => 2000
  | .USDC, .WETH => 5 / 10000
  | .USDC, .DAI => 1
  | .USDC, .USDT => 1
  | .DAI, .WETH => 5 / 10000
  | .DAI, .USDC => 1
  | .DAI, .USDT => 1
  | .USDT, .WETH => 5 / 10000
  | .USDT, .USDC => 1
  | .USDT, .DAI => 1
  | _, _ => 1

/-- Quote computation of the educational swap page's useEffect: if the amount
field is non-empty and parses to a positive number, the output amount is
computed as parseFloat(amount) * rate * 0.997 in double arithmetic, then
converted to smallest units via toFixed(decimals) and parseUnits; otherwise
the quote is null.  The amount field is represented by the exact decimal
value it holds (none for an empty field). -/
def quoteOf (amount : Option ℚ) (f t : TokenKey) : Option ℤ :=
  match amount with
  | none => none
  | some a =>
    if 0 < jsParse a then
      some (jsToFixedUnits
        (dmul (dmul (jsParse a) (jsParse (mockRate f t))) (jsParse (997 / 1000)))
        (decimalsOf t))
    else none

/-- Slippage factor of the swap page: Math.floor((100 - parseFloat(slippage))
* 100), evaluated in double arithmetic on the decimal value d of the slippage
field (the literal 100 is exactly representable).  BigInt of the floored
double is exact for the magnitudes involved. -/
def slippageFactor (d : ℚ) : ℤ := ⌊dmul (dsub 100 (jsParse d)) 100⌋

/-- Minimum-output computation of the swap page: quote && slippage ?
(quote * BigInt(factor)) / 10000n : 0n.  A null quote or empty slippage field
(and, via JavaScript truthiness, a zero quote) yields 0; otherwise the final
scaling is exact bigint arithmetic with truncating division. -/
def minimumOut (quote : Option ℤ) (slippage : Option ℚ) : ℤ :=
  match quote, slippage with
  | some q, some d => if q = 0 then 0 else (q * slippageFactor d).tdiv 10000
  | _, _ => 0

/-- Modelled from the spec: the quote in smallest units computed with exact
integer-free-of-floating-point arithmetic, as the specification's numeric
semantics section demands (all fee quantities computed without floating
point).  Used only to compare the page's floating-point computation against
the specified integer arithmetic. -/
def specQuoteWei (a : ℚ) (f t : TokenKey) : ℚ :=
  a * mockRate f t * (997 / 1000) * 10 ^ (decimalsOf t)

/-- Modelled from the spec: the claim's minimum-output formula
(q * floor((100 - s) * 100)) / 10000 evaluated with exact arithmetic on the
parsed slippage number s, for comparison with the page's double-precision
factor computation. -/
def specMinimumOut (q : ℤ) (d : ℚ) : ℤ :=
  (q * ⌊(100 - jsParse d) * 100⌋).tdiv 10000

/-- Status banner categories used by both swap page variants. -/
inductive StatusType
  | success
  | error
  | info
  | warning
deriving DecidableEq

/-- Status banner: type plus message, as stored in the status useState. -/
structure Status where
  ty : StatusType
  message : String
deriving DecidableEq

/-- A numeric text input: the raw text of the field together with the exact
decimal value it parses to (none when the field is empty or holds no
number). -/
structure NumericInput where
  raw : String
  value : Option ℚ

/-- Effects a swap handler could emit: contract writes and transaction
broadcasts (the wagmi writeContract / sendTransaction capabilities imported
by the pages), and deferred status updates via setTimeout. -/
inductive SwapEffect
  | writeContract (functionName : String)
  | sendTransaction
  | scheduleStatus (delayMs : ℕ) (s : Status)

/-- Whether an effect broadcasts a transaction on-chain. -/
def SwapEffect.isBroadcast : SwapEffect → Bool
  | .writeContract _ => true
  | .sendTransaction => true
  | .scheduleStatus _ _ => false

/-- Component state of the educational swap page variant (first SwapPage in
src/app/swap/page.tsx): its useState hooks. -/
structure SwapPageState where
  fromToken : TokenKey
  toToken : TokenKey
  amount : NumericInput
  slippage : NumericInput
  quote : Option ℤ
  status : Option Status

/-- The warning shown by the educational page's swap button. -/
def educationalWarning : Status :=
  ⟨.warning, "⚠️ Swaps están deshabilitados en modo educativo. Ver código en /app/swap/page.tsx para implementación completa."⟩

/-- handleSwapClick of the educational swap page: it only sets a warning
status and emits no effect. -/
def handleSwapClick (st : SwapPageState) : SwapPageState × List SwapEffect :=
  ({ st with status := some educationalWarning }, [])

/-- Component state of the demo swap page variant (second SwapPage in
src/app/swap/page.tsx): its useState hooks. -/
structure SwapDemoState where
  fromToken : String
  toToken : String
  amount : NumericInput
  status : Option Status

/-- The demo page's validity test: !amount || parseFloat(amount) <= 0.  An
empty field is falsy; a non-empty non-numeric field parses to NaN, and
NaN <= 0 is false in JavaScript, so only an actual non-positive parse takes
the second disjunct. -/
def invalidAmount (a : NumericInput) : Bool :=
  a.raw = "" ||
    (match a.value with
     | some v => decide (jsParse v ≤ 0)
     | none => false)

/-- handleSwap of the demo swap page: invalid amounts set an error status and
return; otherwise an info status is set and a success status is scheduled
2000 milliseconds later via setTimeout.  No contract write or transaction
broadcast is ever emitted. -/
def handleSwap (st : SwapDemoState) : SwapDemoState × List SwapEffect :=
  if invalidAmount st.amount then
    ({ st with status := some ⟨.error, "Ingresa una cantidad válida"⟩ }, [])
  else
    ({ st with status := some ⟨.info, "🔄 Preparando swap... (Esta es una demostración)"⟩ },
     [SwapEffect.scheduleStatus 2000
       ⟨.success, "✅ Swap simulado exitosamente: " ++ st.amount.raw ++ " " ++
         st.fromToken ++ " → " ++ st.toToken⟩])

/-- App registration data of the Base context (src/contexts/BaseContext.tsx). -/
structure BaseAppData where
  name : String
  description : String
  url : String
  icon : Option String

/-- Value provided by BaseProvider.  The three callback members of the
TypeScript interface are represented by the data they close over: registering
and unregistering only update the app field, and checkBaseNetwork returns
whether the connected chain is Base, the same boolean as isOnBase. -/
structure BaseContextType where
  app : Option BaseAppData
  isOnBase : Bool

/-- useBase of src/contexts/BaseContext.tsx: read the React context; if it is
undefined (no BaseProvider above the caller) throw an Error with a fixed
message, otherwise return the context value.  The context argument is the
value React's useContext returns: none exactly when no provider is mounted
in the ancestry, since BaseProvider always supplies a value object. -/
def useBase {α : Type} (ctx : Option α) : Except String α :=
  match ctx with
  | none => Except.error "useBase must be used within a BaseProvider"
  | some v => Except.ok v

/-- Descriptor of a contract call: target address, function selector, encoded
arguments and attached value, per the specification's data model. -/
structure CallDescriptor where
  target : String
  selector : String
  args : List ℤ
  value : ℤ

/-- Outcome of simulating a call against current state (the node's eth_call /
estimateGas behaviour): a successful simulation yields a raw gas estimate,
a failed one yields the revert reason. -/
inductive SimOutcome
  | success (rawGas : ℕ)
  | revert (reason : String)

/-- Errors detected before any broadcast, per the specification's error
taxonomy: encoding-level rejection and simulation revert. -/
inductive PreflightError
  | encoding (detail : String)
  | simulationReverted (reason : String)
deriving DecidableEq

/-- Address shape check used before signing (the isAddress validation in the
documentation's pre-signing checklist): a 0x prefix followed by 40 characters
(the hexadecimal-digit restriction of the full check is immaterial here). -/
def isAddressLike (a : String) : Bool :=
  match a.data with
  | '0' :: 'x' :: rest => rest.length == 40
  | _ => false

/-- Modelled from the spec and the pre-signing validation example of
src/docs/fundamentals/transactions.md (Validar Antes de Firmar): validate the
recipient address and balance, then simulate the call; report the first
pre-broadcast failure, or none when every check passes.  The write submitter
itself is not implemented in the repository's application code, only
documented, so this pipeline is modelled from those words. -/
def preflight (sim : CallDescriptor → SimOutcome) (balance : ℤ)
    (d : CallDescriptor) : Option PreflightError :=
  if ¬ isAddressLike d.target then
    some (.encoding "Invalid recipient address")
  else if balance < d.value then
    some (.encoding "Insufficient balance")
  else
    match sim d with
    | .revert r => some (.simulationReverted r)
    | .success _ => none

/-- Modelled from the spec: the submit pipeline.  It runs the pre-broadcast
checks; on any pre-broadcast failure nothing is broadcast and the failure is
returned, otherwise the descriptor is broadcast.  The first component lists
every broadcast the execution performs. -/
def submitFlow (sim : CallDescriptor → SimOutcome) (balance : ℤ)
    (d : CallDescriptor) : List CallDescriptor × Except PreflightError Unit :=
  match preflight sim balance d with
  | some e => ([], Except.error e)
  | none => ([d], Except.ok ())

/-- Gas-limit buffer of the documentation's GasEstimator component
(src/docs/fundamentals/transactions.md): gasEstimate * 120n / 100n in bigint
arithmetic, a 20 percent buffer with truncating division. -/
def gasLimitOf (gasEstimate : ℕ) : ℕ := gasEstimate * 120 / 100

/-- Modelled from the spec and the documentation's estimation examples: the
fee estimator simulates the call; a revert propagates the revert reason
instead of any numeric estimate, and a successful simulation returns the raw
estimate scaled by the documented buffer. -/
def feeEstimate (sim : CallDescriptor → SimOutcome) (d : CallDescriptor) :
    Except String ℕ :=
  match sim d with
  | .revert r => Except.error r
  | .success raw => Except.ok (gasLimitOf raw)

/-- Claimed property of the gas buffer: the returned limit is the raw
estimate scaled by a factor between 1.10 and 1.25 inclusive, stated over the
integers as 11 * raw <= 10 * limit and 4 * limit <= 5 * raw. -/
def bufferedInRange (raw lim : ℕ) : Prop :=
  11 * raw ≤ 10 * lim ∧ 4 * lim ≤ 5 * raw

/-- Per-entry result of a batched read, as in the multicall documentation:
either a success value or an error marker. -/
inductive CallResult (α ε : Type)
  | success (v : α)
  | failure (e : ε)
deriving DecidableEq

/-- Modelled from the spec and the multicall documentation of
src/unnamed/part_002: batchRead over a chain whose per-call outcomes are
given by the outcome function.  With allowFailure each entry's outcome is
reported independently; without it the first failing entry fails the whole
batch. -/
def batchRead (outcome : CallDescriptor → Except String ℤ)
    (allowFailure : Bool) (ds : List CallDescriptor) :
    Except String (List (CallResult ℤ String)) :=
  if allowFailure then
    Except.ok (ds.map fun d =>
      match outcome d with
      | .ok v => CallResult.success v
      | .error e => CallResult.failure e)
  else
    ds.foldr
      (fun d acc =>
        match outcome d with
        | .error e => Except.error e
        | .ok v =>
          match acc with
          | .ok rs => Except.ok (CallResult.success v :: rs)
          | .error e => Except.error e)
      (Except.ok [])

/-- Nonce state of the write submitter: the next unused nonce per account. -/
def NonceMap : Type := String → ℕ

/-- Modelled from the spec: atomic nonce reservation for an account — read
the account's next nonce and increment it in one step, the single-writer
discipline the specification requires. -/
def reserveNonce (st : NonceMap) (a : String) : ℕ × NonceMap :=
  (st a, fun b => if b = a then st a + 1 else st b)

/-- Nonces assigned to account a when the atomic reservations of concurrent
submit calls are executed in the interleaving order given by the list:
concurrency is modelled as an arbitrary interleaving of atomic steps. -/
def assignedNonces (st : NonceMap) (l : List String) (a : String) : List ℕ :=
  match l with
  | [] => []
  | b :: rest =>
    let p := reserveNonce st b
    if b = a then p.1 :: assignedNonces p.2 rest a
    else assignedNonces p.2 rest a

/-- Number of reservations a given account performs in an interleaving. -/
def countOcc (a : String) : List String → ℕ
  | [] => 0
  | b :: rest => (if b = a then 1 else 0) + countOcc a rest

/-- A concrete call descriptor (an ERC-20 balance query) used to instantiate
the layer's operations at specific inputs. -/
def sampleCall : CallDescriptor :=
  ⟨"0xC02aaA39b223FE8D0A0e5C4F27eAD9083C756Cc2", "balanceOf", [0], 0⟩

/-- Status of a pending operation, per the specification's receipt-watcher
state machine (the documentation's TxStatus enumerates the same phases
without a finalized member; the machine itself is specified, not
implemented). -/
inductive TxPhase
  | submitted
  | included
  | confirmed (k : ℕ)
  | finalized
  | reverted
  | dropped
  | replaced
deriving DecidableEq

/-- Modelled from the spec: the receipt watcher's transition relation with
finality threshold K.  Submitted operations are included, dropped, replaced
or reverted; inclusion starts the confirmation count; confirmations
increment per block; once the count reaches the threshold the operation is
finalized. -/
inductive PhaseStep (K : ℕ) : TxPhase → TxPhase → Prop
  | toIncluded : PhaseStep K .submitted .included
  | toDropped : PhaseStep K .submitted .dropped
  | toReplaced : PhaseStep K .submitted .replaced
  | toReverted : PhaseStep K .submitted .reverted
  | firstConfirmation : PhaseStep K .included (.confirmed 1)
  | nextConfirmation (k : ℕ) : PhaseStep K (.confirmed k) (.confirmed (k + 1))
  | finalize (k : ℕ) (h : K ≤ k) : PhaseStep K (.confirmed k) .finalized

/-- Modelled from the spec: deterministic chain state — the value every read
returns, per block height and descriptor. -/
def ChainWorld : Type := ℕ → CallDescriptor → ℤ

/-- Modelled from the spec: a read invocation at wall-clock instant now,
pinned to an explicit historical height when blockTag is some h, and served
from the chain head otherwise (blockTag none is the latest tag). -/
def readAt (w : ChainWorld) (d : CallDescriptor) (blockTag : Option ℕ)
    (now : ℕ) : ℤ :=
  match blockTag with
  | some h => w h d
  | none => w now d

/-! Basic facts about the binary64 rounding model. -/

theorem pow2z_eq (e : ℤ) : pow2z e = (2 : ℚ) ^ e := by
  cases e with
  | ofNat n => simp [pow2z, zpow_natCast]
  | negSucc n => simp [pow2z, zpow_negSucc]

theorem pow2z_pos (e : ℤ) : 0 < pow2z e := by
  rw [pow2z_eq]; exact zpow_pos (by norm_num) e

theorem pow2z_mul (a b : ℤ) : pow2z a * pow2z b = pow2z (a + b) := by
  rw [pow2z_eq, pow2z_eq, pow2z_eq, ← zpow_add₀ (by norm_num : (2:ℚ) ≠ 0)]

theorem pow2z_le_pow2z {a b : ℤ} (h : a ≤ b) : pow2z a ≤ pow2z b := by
  rw [pow2z_eq, pow2z_eq]
  exact zpow_le_zpow_right₀ (by norm_num) h

theorem pow2z_neg (e : ℤ) : pow2z (-e) = (pow2z e)⁻¹ := by
  rw [pow2z_eq, pow2z_eq, zpow_neg]

theorem pow2z_lt_pow2z {a b : ℤ} (h : a < b) : pow2z a < pow2z b := by
  rw [pow2z_eq, pow2z_eq]
  exact zpow_lt_zpow_right₀ (by norm_num) h

theorem floor_le_rne (q : ℚ) : ⌊q⌋ ≤ rne q := by
  unfold rne
  split_ifs <;> omega

theorem rne_le_floor_add_one (q : ℚ) : rne q ≤ ⌊q⌋ + 1 := by
  unfold rne
  split_ifs <;> omega

theorem rne_ge (q : ℚ) : q - 1 / 2 ≤ (rne q : ℚ) := by
  have h1 := Int.lt_floor_add_one q
  unfold rne
  split_ifs with h h' h'' <;> push_cast <;> linarith

theorem rne_le (q : ℚ) : (rne q : ℚ) ≤ q + 1 / 2 := by
  have h1 := Int.floor_le q
  unfold rne
  split_ifs with h h' h'' <;> push_cast <;> linarith

theorem rne_mono {a b : ℚ} (h : a ≤ b) : rne a ≤ rne b := by
  have hf : ⌊a⌋ ≤ ⌊b⌋ := Int.floor_mono h
  rcases lt_or_eq_of_le hf with hlt | heq
  · calc rne a ≤ ⌊a⌋ + 1 := rne_le_floor_add_one a
      _ ≤ ⌊b⌋ := by omega
      _ ≤ rne b := floor_le_rne b
  · have ha := Int.floor_le a
    have hb := Int.lt_floor_add_one b
    unfold rne
    rw [← heq]
    split_ifs <;> first | omega | linarith

theorem rne_eq_of_lt_half {q : ℚ} {f : ℤ} (h1 : (f : ℚ) ≤ q)
    (h2 : q < (f : ℚ) + 1 / 2) : rne q = f := by
  have hfl : ⌊q⌋ = f := Int.floor_eq_iff.mpr ⟨h1, by linarith⟩
  unfold rne
  rw [hfl]
  have hlt : q - (f : ℚ) < 1 / 2 := by linarith
  rw [if_pos hlt]

theorem rne_eq_of_half_lt {q : ℚ} {f : ℤ} (h1 : (f : ℚ) + 1 / 2 < q)
    (h2 : q < (f : ℚ) + 1) : rne q = f + 1 := by
  have hfl : ⌊q⌋ = f := Int.floor_eq_iff.mpr ⟨by linarith, h2⟩
  unfold rne
  rw [hfl]
  have hn : ¬ (q - (f : ℚ) < 1 / 2) := by push_neg; linarith
  have hy : (1 : ℚ) / 2 < q - (f : ℚ) := by linarith
  rw [if_neg hn, if_pos hy]

theorem rne_eq_of_tie_even {q : ℚ} {f : ℤ} (h1 : q = (f : ℚ) + 1 / 2)
    (h2 : f % 2 = 0) : rne q = f := by
  have hfl : ⌊q⌋ = f := Int.floor_eq_iff.mpr ⟨by linarith, by linarith⟩
  unfold rne
  rw [hfl]
  have hn : ¬ (q - (f : ℚ) < 1 / 2) := by push_neg; linarith
  have hn' : ¬ ((1 : ℚ) / 2 < q - (f : ℚ)) := by push_neg; linarith
  rw [if_neg hn, if_neg hn', if_pos h2]

theorem rne_intCast (m : ℤ) : rne (m : ℚ) = m :=
  rne_eq_of_lt_half le_rfl (by linarith)

theorem lg2_spec : ∀ fuel n : ℕ, 1 ≤ n → n ≤ fuel →
    2 ^ lg2 fuel n ≤ n ∧ n < 2 ^ (lg2 fuel n + 1) := by
  intro fuel
  induction fuel with
  | zero => intro n h1 h2; omega
  | succ f ih =>
    intro n h1 h2
    by_cases hs : n < 2
    · have : lg2 (f + 1) n = 0 := by simp [lg2, hs]
      rw [this]
      constructor <;> simp <;> omega
    · have hrec : lg2 (f + 1) n = lg2 f (n / 2) + 1 := by simp [lg2, hs]
      have hd1 : 1 ≤ n / 2 := by omega
      have hd2 : n / 2 ≤ f := by omega
      obtain ⟨hlo, hhi⟩ := ih (n / 2) hd1 hd2
      rw [hrec]
      constructor
      · calc 2 ^ (lg2 f (n / 2) + 1) = 2 * 2 ^ lg2 f (n / 2) := by ring
          _ ≤ 2 * (n / 2) := by omega
          _ ≤ n := by omega
      · calc n < 2 * (n / 2) + 2 := by omega
          _ ≤ 2 * 2 ^ (lg2 f (n / 2) + 1) := by omega
          _ = 2 ^ (lg2 f (n / 2) + 1 + 1) := by ring

theorem log2N_spec {n : ℕ} (h : 1 ≤ n) :
    2 ^ log2N n ≤ n ∧ n < 2 ^ (log2N n + 1) :=
  lg2_spec n n h le_rfl

theorem floorLog2_spec {q : ℚ} (hq : 0 < q) :
    pow2z (floorLog2 q) ≤ q ∧ q < pow2z (floorLog2 q + 1) := by
  unfold floorLog2
  by_cases h1 : 1 ≤ q
  · rw [if_pos h1]
    have hfl : (1 : ℤ) ≤ ⌊q⌋ := by
      rwa [Int.le_floor, Int.cast_one]
    have hn1 : 1 ≤ ⌊q⌋.toNat := by omega
    obtain ⟨hlo, hhi⟩ := log2N_spec hn1
    have hcastfl : ((⌊q⌋.toNat : ℤ) : ℚ) = (⌊q⌋ : ℚ) := by
      congr 1; omega
    constructor
    · rw [pow2z_eq, zpow_natCast]
      calc ((2 : ℚ) ^ log2N ⌊q⌋.toNat) = ((2 ^ log2N ⌊q⌋.toNat : ℕ) : ℚ) := by
            push_cast; ring
        _ ≤ ((⌊q⌋.toNat : ℤ) : ℚ) := by exact_mod_cast hlo
        _ = (⌊q⌋ : ℚ) := hcastfl
        _ ≤ q := Int.floor_le q
    · have : ((log2N ⌊q⌋.toNat : ℤ) + 1) = ((log2N ⌊q⌋.toNat + 1 : ℕ) : ℤ) := by
        push_cast; ring
      rw [this, pow2z_eq, zpow_natCast]
      calc q < (⌊q⌋ : ℚ) + 1 := Int.lt_floor_add_one q
        _ = ((⌊q⌋.toNat : ℤ) : ℚ) + 1 := by rw [hcastfl]
        _ ≤ ((2 ^ (log2N ⌊q⌋.toNat + 1) : ℕ) : ℚ) := by
            have h' : ⌊q⌋.toNat + 1 ≤ 2 ^ (log2N ⌊q⌋.toNat + 1) := hhi
            exact_mod_cast h'
        _ = (2 : ℚ) ^ (log2N ⌊q⌋.toNat + 1) := by push_cast; ring
  · rw [if_neg h1]
    push_neg at h1
    have hinv : 1 < q⁻¹ := (one_lt_inv₀ hq).mpr h1
    have hfl : (1 : ℤ) ≤ ⌊q⁻¹⌋ := by
      rw [Int.le_floor, Int.cast_one]; linarith
    have hn1 : 1 ≤ ⌊q⁻¹⌋.toNat := by omega
    obtain ⟨hlo, hhi⟩ := log2N_spec hn1
    set k := log2N ⌊q⁻¹⌋.toNat with hk
    have hcastfl : ((⌊q⁻¹⌋.toNat : ℤ) : ℚ) = (⌊q⁻¹⌋ : ℚ) := by
      congr 1; omega
    have hlow : (2 : ℚ) ^ k ≤ q⁻¹ := by
      calc ((2 : ℚ) ^ k) = ((2 ^ k : ℕ) : ℚ) := by push_cast; ring
        _ ≤ ((⌊q⁻¹⌋.toNat : ℤ) : ℚ) := by exact_mod_cast hlo
        _ = (⌊q⁻¹⌋ : ℚ) := hcastfl
        _ ≤ q⁻¹ := Int.floor_le _
    have hhigh : q⁻¹ < (2 : ℚ) ^ (k + 1) := by
      calc q⁻¹ < (⌊q⁻¹⌋ : ℚ) + 1 := Int.lt_floor_add_one _
        _ = ((⌊q⁻¹⌋.toNat : ℤ) : ℚ) + 1 := by rw [hcastfl]
        _ ≤ ((2 ^ (k + 1) : ℕ) : ℚ) := by
            have h' : ⌊q⁻¹⌋.toNat + 1 ≤ 2 ^ (k + 1) := hhi
            exact_mod_cast h'
        _ = (2 : ℚ) ^ (k + 1) := by push_cast; ring
    -- from the bracketing of the inverse: 2 ^ (-(k+1)) < q ≤ 2 ^ (-k)
    have hq_le : q ≤ (2 : ℚ) ^ (-(k : ℤ)) := by
      rw [zpow_neg, zpow_natCast]
      rw [le_inv_comm₀ (by positivity) hq] at hlow
      exact hlow
    have hq_gt : (2 : ℚ) ^ (-((k : ℤ) + 1)) < q := by
      rw [zpow_neg]
      have h2pos : (0 : ℚ) < (2 : ℚ) ^ ((k : ℤ) + 1) := by positivity
      rw [inv_lt_comm₀ h2pos hq]
      have : ((2 : ℚ) ^ ((k : ℤ) + 1)) = (2 : ℚ) ^ (k + 1) := by
        rw [← zpow_natCast (2 : ℚ) (k + 1)]; push_cast; ring_nf
      rw [this]
      exact hhigh
    by_cases he : q * pow2z k = 1
    · rw [if_pos he]
      have hqe : q = pow2z (-(k : ℤ)) := by
        rw [pow2z_neg]
        exact eq_inv_of_mul_eq_one_left he
      constructor
      · exact le_of_eq hqe.symm
      · rw [hqe]
        exact pow2z_lt_pow2z (by omega)
    · rw [if_neg he]
      have hqlt : q < (2 : ℚ) ^ (-(k : ℤ)) := by
        rcases lt_or_eq_of_le hq_le with h | h
        · exact h
        · exfalso
          apply he
          rw [pow2z_eq, zpow_natCast, h]
          rw [zpow_neg, zpow_natCast]
          field_simp
      constructor
      · rw [pow2z_eq]
        have : (-(k : ℤ) - 1) = -((k : ℤ) + 1) := by ring
        rw [this]
        exact le_of_lt hq_gt
      · rw [pow2z_eq]
        have : (-(k : ℤ) - 1 + 1) = -(k : ℤ) := by ring
        rw [this]
        exact hqlt

theorem floorLog2_eq {q : ℚ} {e : ℤ} (hq : 0 < q) (h1 : pow2z e ≤ q)
    (h2 : q < pow2z (e + 1)) : floorLog2 q = e := by
  obtain ⟨g1, g2⟩ := floorLog2_spec hq
  by_contra hne
  rcases lt_or_gt_of_ne hne with hlt | hgt
  · have : pow2z (floorLog2 q + 1) ≤ pow2z e := pow2z_le_pow2z (by omega)
    linarith
  · have : pow2z (e + 1) ≤ pow2z (floorLog2 q) := pow2z_le_pow2z (by omega)
    linarith

theorem roundDouble_zero : roundDouble 0 = 0 := by
  simp [roundDouble]

theorem roundDouble_pos_eq {q : ℚ} (hq : 0 < q) :
    roundDouble q =
      (rne (q * pow2z (52 - floorLog2 q)) : ℚ) * pow2z (floorLog2 q - 52) := by
  rw [roundDouble, if_neg (ne_of_gt hq), if_pos hq]

theorem roundDouble_eval_core {q : ℚ} {e : ℤ} (hq : 0 < q)
    (h1 : pow2z e ≤ q) (h2 : q < pow2z (e + 1)) :
    roundDouble q = (rne (q * pow2z (52 - e)) : ℚ) * pow2z (e - 52) := by
  rw [roundDouble_pos_eq hq, floorLog2_eq hq h1 h2]

theorem roundDouble_eval_down {q r : ℚ} {e f : ℤ} (hq : 0 < q)
    (h1 : pow2z e ≤ q) (h2 : q < pow2z (e + 1))
    (h3 : (f : ℚ) ≤ q * pow2z (52 - e)) (h4 : q * pow2z (52 - e) < (f : ℚ) + 1 / 2)
    (hr : (f : ℚ) * pow2z (e - 52) = r) :
    roundDouble q = r := by
  rw [roundDouble_eval_core hq h1 h2, rne_eq_of_lt_half h3 h4, hr]

theorem roundDouble_eval_up {q r : ℚ} {e f : ℤ} (hq : 0 < q)
    (h1 : pow2z e ≤ q) (h2 : q < pow2z (e + 1))
    (h3 : (f : ℚ) + 1 / 2 < q * pow2z (52 - e)) (h4 : q * pow2z (52 - e) < (f : ℚ) + 1)
    (hr : ((f + 1 : ℤ) : ℚ) * pow2z (e - 52) = r) :
    roundDouble q = r := by
  rw [roundDouble_eval_core hq h1 h2, rne_eq_of_half_lt h3 h4, hr]

theorem roundDouble_eval_tie {q r : ℚ} {e f : ℤ} (hq : 0 < q)
    (h1 : pow2z e ≤ q) (h2 : q < pow2z (e + 1))
    (h3 : q * pow2z (52 - e) = (f : ℚ) + 1 / 2) (h4 : f % 2 = 0)
    (hr : (f : ℚ) * pow2z (e - 52) = r) :
    roundDouble q = r := by
  rw [roundDouble_eval_core hq h1 h2, rne_eq_of_tie_even h3 h4, hr]

theorem roundDouble_exact {q : ℚ} {e m : ℤ} (hq : 0 < q)
    (h1 : pow2z e ≤ q) (h2 : q < pow2z (e + 1))
    (hm : (m : ℚ) = q * pow2z (52 - e)) :
    roundDouble q = q := by
  rw [roundDouble_eval_core hq h1 h2, ← hm, rne_intCast, hm]
  rw [mul_assoc, pow2z_mul]
  have h0 : (52 - e + (e - 52)) = (0 : ℤ) := by ring
  rw [h0, pow2z_eq]
  norm_num

theorem roundDouble_nonneg {q : ℚ} (hq : 0 ≤ q) : 0 ≤ roundDouble q := by
  rcases eq_or_lt_of_le hq with h | h
  · rw [← h, roundDouble_zero]
  · rw [roundDouble_pos_eq h]
    have harg : 0 ≤ q * pow2z (52 - floorLog2 q) :=
      le_of_lt (mul_pos h (pow2z_pos _))
    have hfl : 0 ≤ ⌊q * pow2z (52 - floorLog2 q)⌋ := Int.floor_nonneg.mpr harg
    have hrne : 0 ≤ rne (q * pow2z (52 - floorLog2 q)) :=
      le_trans hfl (floor_le_rne _)
    exact mul_nonneg (by exact_mod_cast hrne) (le_of_lt (pow2z_pos _))

theorem roundDouble_pos_of_pos {q : ℚ} (hq : 0 < q) : 0 < roundDouble q := by
  rw [roundDouble_pos_eq hq]
  obtain ⟨g1, g2⟩ := floorLog2_spec hq
  have h52 : pow2z 52 ≤ q * pow2z (52 - floorLog2 q) := by
    calc pow2z 52 = pow2z (floorLog2 q) * pow2z (52 - floorLog2 q) := by
          rw [pow2z_mul]; ring_nf
      _ ≤ q * pow2z (52 - floorLog2 q) :=
          mul_le_mul_of_nonneg_right g1 (le_of_lt (pow2z_pos _))
  have hrne : (1 : ℚ) ≤ (rne (q * pow2z (52 - floorLog2 q)) : ℚ) := by
    have hge := rne_ge (q * pow2z (52 - floorLog2 q))
    have hp : (2 : ℚ) ≤ pow2z 52 := by
      have h := pow2z_le_pow2z (show (1 : ℤ) ≤ 52 by norm_num)
      rwa [pow2z_eq, zpow_one] at h
    linarith
  have := pow2z_pos (floorLog2 q - 52)
  nlinarith

theorem roundDouble_le_two_pow {q : ℚ} {e : ℤ} (hq : 0 < q)
    (h1 : pow2z e ≤ q) (h2 : q < pow2z (e + 1)) :
    roundDouble q ≤ pow2z (e + 1) := by
  rw [roundDouble_eval_core hq h1 h2]
  have harg : q * pow2z (52 - e) < pow2z 53 := by
    calc q * pow2z (52 - e) < pow2z (e + 1) * pow2z (52 - e) :=
          mul_lt_mul_of_pos_right h2 (pow2z_pos _)
      _ = pow2z 53 := by rw [pow2z_mul]; ring_nf
  have h53 : pow2z (53 : ℤ) = ((2 ^ 53 : ℤ) : ℚ) := by
    rw [pow2z_eq]; norm_num
  have hrne : rne (q * pow2z (52 - e)) ≤ 2 ^ 53 := by
    have hle := rne_le (q * pow2z (52 - e))
    have : (rne (q * pow2z (52 - e)) : ℚ) < ((2 ^ 53 : ℤ) : ℚ) + 1 / 2 := by
      rw [← h53]; linarith
    have : (rne (q * pow2z (52 - e)) : ℚ) < ((2 ^ 53 : ℤ) : ℚ) + 1 := by linarith
    exact_mod_cast Int.lt_add_one_iff.mp (by exact_mod_cast this)
  calc (rne (q * pow2z (52 - e)) : ℚ) * pow2z (e - 52)
      ≤ ((2 ^ 53 : ℤ) : ℚ) * pow2z (e - 52) := by
        apply mul_le_mul_of_nonneg_right _ (le_of_lt (pow2z_pos _))
        exact_mod_cast hrne
    _ = pow2z 53 * pow2z (e - 52) := by rw [h53]
    _ = pow2z (e + 1) := by rw [pow2z_mul]; ring_nf

theorem pow2_le_roundDouble {q : ℚ} {e : ℤ} (hq : 0 < q)
    (h1 : pow2z e ≤ q) (h2 : q < pow2z (e + 1)) :
    pow2z e ≤ roundDouble q := by
  rw [roundDouble_eval_core hq h1 h2]
  have harg : pow2z 52 ≤ q * pow2z (52 - e) := by
    calc pow2z 52 = pow2z e * pow2z (52 - e) := by rw [pow2z_mul]; ring_nf
      _ ≤ q * pow2z (52 - e) :=
          mul_le_mul_of_nonneg_right h1 (le_of_lt (pow2z_pos _))
  have h52 : pow2z (52 : ℤ) = ((2 ^ 52 : ℤ) : ℚ) := by
    rw [pow2z_eq]; norm_num
  have hrne : (2 : ℤ) ^ 52 ≤ rne (q * pow2z (52 - e)) := by
    have hge := rne_ge (q * pow2z (52 - e))
    have : ((2 ^ 52 : ℤ) : ℚ) - 1 < (rne (q * pow2z (52 - e)) : ℚ) := by
      rw [← h52]; linarith
    have : ((2 ^ 52 : ℤ) : ℚ) ≤ (rne (q * pow2z (52 - e)) : ℚ) + 1 := by linarith
    have h' : (2 : ℤ) ^ 52 ≤ rne (q * pow2z (52 - e)) + 1 := by exact_mod_cast this
    -- the rounding of a value at least 2^52 cannot be the integer 2^52 - 1
    rcases lt_or_ge (rne (q * pow2z (52 - e))) (2 ^ 52) with hlt | hge'
    · exfalso
      have hfl : (2 : ℤ) ^ 52 ≤ ⌊q * pow2z (52 - e)⌋ := by
        rw [Int.le_floor, ← h52]
        exact_mod_cast harg
      have := floor_le_rne (q * pow2z (52 - e))
      omega
    · exact hge'
  calc pow2z e = pow2z 52 * pow2z (e - 52) := by rw [pow2z_mul]; ring_nf
    _ = ((2 ^ 52 : ℤ) : ℚ) * pow2z (e - 52) := by rw [h52]
    _ ≤ (rne (q * pow2z (52 - e)) : ℚ) * pow2z (e - 52) := by
        apply mul_le_mul_of_nonneg_right _ (le_of_lt (pow2z_pos _))
        exact_mod_cast hrne

theorem roundDouble_mono_nonneg {a b : ℚ} (ha : 0 ≤ a) (hab : a ≤ b) :
    roundDouble a ≤ roundDouble b := by
  rcases eq_or_lt_of_le ha with h0 | hpa
  · rw [← h0, roundDouble_zero]
    exact roundDouble_nonneg (le_trans ha hab)
  · have hpb : 0 < b := lt_of_lt_of_le hpa hab
    obtain ⟨g1a, g2a⟩ := floorLog2_spec hpa
    obtain ⟨g1b, g2b⟩ := floorLog2_spec hpb
    have hee : floorLog2 a ≤ floorLog2 b := by
      by_contra hlt
      push_neg at hlt
      have : pow2z (floorLog2 b + 1) ≤ pow2z (floorLog2 a) :=
        pow2z_le_pow2z (by omega)
      linarith
    rcases eq_or_lt_of_le hee with heq | hlt
    · rw [roundDouble_pos_eq hpa, roundDouble_pos_eq hpb, heq]
      apply mul_le_mul_of_nonneg_right _ (le_of_lt (pow2z_pos _))
      have : rne (a * pow2z (52 - floorLog2 b)) ≤ rne (b * pow2z (52 - floorLog2 b)) :=
        rne_mono (mul_le_mul_of_nonneg_right hab (le_of_lt (pow2z_pos _)))
      exact_mod_cast this
    · calc roundDouble a ≤ pow2z (floorLog2 a + 1) :=
            roundDouble_le_two_pow hpa g1a g2a
        _ ≤ pow2z (floorLog2 b) := pow2z_le_pow2z (by omega)
        _ ≤ roundDouble b := pow2_le_roundDouble hpb g1b g2b

/-! Concrete binary64 values arising in the swap page computations.  Each is
obtained from the generic rounding lemmas; the bracketing exponent and the
scaled significand are verified by rational arithmetic. -/

theorem rd_tenth :
    roundDouble (1 / 10 : ℚ) = 3602879701896397 / 36028797018963968 := by
  apply roundDouble_eval_up (e := -4) (f := 7205759403792793)
  · norm_num
  · rw [pow2z_eq]; norm_num
  · rw [pow2z_eq]; norm_num
  · rw [pow2z_eq]; norm_num
  · rw [pow2z_eq]; norm_num
  · rw [pow2z_eq]; norm_num

theorem rd_c997 :
    roundDouble (997 / 1000 : ℚ) = 8980177656976769 / 9007199254740992 := by
  apply roundDouble_eval_down (e := -1) (f := 8980177656976769)
  · norm_num
  · rw [pow2z_eq]; norm_num
  · rw [pow2z_eq]; norm_num
  · rw [pow2z_eq]; norm_num
  · rw [pow2z_eq]; norm_num
  · rw [pow2z_eq]; norm_num

theorem rd_2000 : roundDouble (2000 : ℚ) = 2000 := by
  apply roundDouble_exact (e := 10) (m := 8796093022208000)
  · norm_num
  · rw [pow2z_eq]; norm_num
  · rw [pow2z_eq]; norm_num
  · rw [pow2z_eq]; norm_num

theorem rd_100 : roundDouble (100 : ℚ) = 100 := by
  apply roundDouble_exact (e := 6) (m := 7036874417766400)
  · norm_num
  · rw [pow2z_eq]; norm_num
  · rw [pow2z_eq]; norm_num
  · rw [pow2z_eq]; norm_num

theorem rd_10000 : roundDouble (10000 : ℚ) = 10000 := by
  apply roundDouble_exact (e := 13) (m := 5497558138880000)
  · norm_num
  · rw [pow2z_eq]; norm_num
  · rw [pow2z_eq]; norm_num
  · rw [pow2z_eq]; norm_num

theorem rd_one : roundDouble (1 : ℚ) = 1 := by
  apply roundDouble_exact (e := 0) (m := 4503599627370496)
  · norm_num
  · rw [pow2z_eq]; norm_num
  · rw [pow2z_eq]; norm_num
  · rw [pow2z_eq]; norm_num

theorem rd_m1 :
    roundDouble ((3602879701896397 / 36028797018963968 : ℚ) * 2000) = 200 := by
  apply roundDouble_eval_down (e := 7) (f := 7036874417766400)
  · norm_num
  · rw [pow2z_eq]; norm_num
  · rw [pow2z_eq]; norm_num
  · rw [pow2z_eq]; norm_num
  · rw [pow2z_eq]; norm_num
  · rw [pow2z_eq]; norm_num

theorem rd_m2 :
    roundDouble ((200 : ℚ) * (8980177656976769 / 9007199254740992)) =
      7015763794513101 / 35184372088832 := by
  apply roundDouble_eval_up (e := 7) (f := 7015763794513100)
  · norm_num
  · rw [pow2z_eq]; norm_num
  · rw [pow2z_eq]; norm_num
  · rw [pow2z_eq]; norm_num
  · rw [pow2z_eq]; norm_num
  · rw [pow2z_eq]; norm_num

theorem rd_z2 :
    roundDouble ((100 : ℚ) - 3602879701896397 / 36028797018963968) =
      3514918771674317 / 35184372088832 := by
  apply roundDouble_eval_up (e := 6) (f := 7029837543348633)
  · norm_num
  · rw [pow2z_eq]; norm_num
  · rw [pow2z_eq]; norm_num
  · rw [pow2z_eq]; norm_num
  · rw [pow2z_eq]; norm_num
  · rw [pow2z_eq]; norm_num

theorem rd_z3 :
    roundDouble ((3514918771674317 / 35184372088832 : ℚ) * 100) = 9990 := by
  apply roundDouble_eval_down (e := 13) (f := 5492060580741120)
  · norm_num
  · rw [pow2z_eq]; norm_num
  · rw [pow2z_eq]; norm_num
  · rw [pow2z_eq]; norm_num
  · rw [pow2z_eq]; norm_num
  · rw [pow2z_eq]; norm_num

theorem jsParse_tenth :
    jsParse (1 / 10 : ℚ) = 3602879701896397 / 36028797018963968 := rd_tenth

theorem slippageFactor_tenth : slippageFactor (1 / 10 : ℚ) = 9990 := by
  unfold slippageFactor dmul dsub
  rw [jsParse_tenth, rd_z2, rd_z3]
  norm_num

theorem specFactor_tenth : ⌊((100 : ℚ) - jsParse (1 / 10)) * 100⌋ = 9989 := by
  rw [jsParse_tenth]
  rw [Int.floor_eq_iff]
  constructor <;> norm_num

theorem quoteOf_tenth_WETH_DAI :
    quoteOf (some (1 / 10 : ℚ)) TokenKey.WETH TokenKey.DAI =
      some 199400000000000005684 := by
  have hpos : (0 : ℚ) < jsParse (1 / 10) := by
    rw [jsParse_tenth]; norm_num
  simp only [quoteOf, mockRate, decimalsOf, if_pos hpos]
  have h1 : dmul (jsParse (1 / 10 : ℚ)) (jsParse (2000 : ℚ)) = 200 := by
    unfold dmul jsParse
    rw [rd_tenth, rd_2000]
    exact rd_m1
  have h2 : dmul (200 : ℚ) (jsParse (997 / 1000 : ℚ)) =
      7015763794513101 / 35184372088832 := by
    unfold dmul jsParse
    rw [rd_c997]
    exact rd_m2
  rw [h1, h2]
  unfold jsToFixedUnits
  congr 1
  rw [Int.floor_eq_iff]
  constructor <;> norm_num

theorem specQuoteWei_tenth_WETH_DAI :
    specQuoteWei (1 / 10) TokenKey.WETH TokenKey.DAI = 199400000000000000000 := by
  unfold specQuoteWei
  simp only [mockRate, decimalsOf]
  norm_num

/-! Range facts about the slippage factor and the minimum-output value. -/

theorem jsParse_nonneg {d : ℚ} (h : 0 ≤ d) : 0 ≤ jsParse d :=
  roundDouble_nonneg h

theorem jsParse_le_100 {d : ℚ} (h0 : 0 ≤ d) (h : d ≤ 100) : jsParse d ≤ 100 := by
  have := roundDouble_mono_nonneg h0 h
  rwa [rd_100] at this

theorem slippageFactor_nonneg {d : ℚ} (h0 : 0 ≤ d) (h100 : d ≤ 100) :
    0 ≤ slippageFactor d := by
  unfold slippageFactor dmul dsub
  apply Int.floor_nonneg.mpr
  apply roundDouble_nonneg
  apply mul_nonneg _ (by norm_num : (0:ℚ) ≤ 100)
  apply roundDouble_nonneg
  have := jsParse_le_100 h0 h100
  linarith

theorem slippageFactor_le_10000 {d : ℚ} (h0 : 0 ≤ d) (h100 : d ≤ 100) :
    slippageFactor d ≤ 10000 := by
  unfold slippageFactor dmul dsub
  have hp0 : 0 ≤ jsParse d := jsParse_nonneg h0
  have hdiff0 : (0 : ℚ) ≤ 100 - jsParse d := by
    have := jsParse_le_100 h0 h100
    linarith
  have hz2n : (0 : ℚ) ≤ roundDouble (100 - jsParse d) := roundDouble_nonneg hdiff0
  have hz2 : roundDouble (100 - jsParse d) ≤ 100 := by
    have hmono := roundDouble_mono_nonneg hdiff0
      (show (100 : ℚ) - jsParse d ≤ 100 by linarith)
    rwa [rd_100] at hmono
  have hz3 : roundDouble (roundDouble (100 - jsParse d) * 100) ≤ 10000 := by
    have hmono := roundDouble_mono_nonneg
      (mul_nonneg hz2n (by norm_num : (0:ℚ) ≤ 100))
      (show roundDouble (100 - jsParse d) * 100 ≤ 10000 by linarith)
    rwa [rd_10000] at hmono
  calc ⌊roundDouble (roundDouble (100 - jsParse d) * 100)⌋
      ≤ ⌊(10000 : ℚ)⌋ := Int.floor_le_floor hz3
    _ = 10000 := by norm_num

theorem minimumOut_le_quote {q : ℤ} {d : ℚ} (hq : 0 ≤ q) (h0 : 0 ≤ d)
    (h100 : d ≤ 100) : minimumOut (some q) (some d) ≤ q := by
  show (if q = 0 then 0 else (q * slippageFactor d).tdiv 10000) ≤ q
  by_cases hz : q = 0
  · simp [hz]
  · rw [if_neg hz]
    have hf0 : 0 ≤ slippageFactor d := slippageFactor_nonneg h0 h100
    have hfle : slippageFactor d ≤ 10000 := slippageFactor_le_10000 h0 h100
    have hmul0 : 0 ≤ q * slippageFactor d := mul_nonneg hq hf0
    rw [Int.tdiv_eq_ediv hmul0 (by norm_num)]
    calc q * slippageFactor d / 10000 ≤ q * 10000 / 10000 :=
          Int.ediv_le_ediv (by norm_num) (by nlinarith)
      _ = q := Int.mul_ediv_cancel q (by norm_num)

theorem minimumOut_nonneg {q : ℤ} {d : ℚ} (hq : 0 ≤ q) (h0 : 0 ≤ d)
    (h100 : d ≤ 100) : 0 ≤ minimumOut (some q) (some d) := by
  show 0 ≤ (if q = 0 then 0 else (q * slippageFactor d).tdiv 10000)
  by_cases hz : q = 0
  · simp [hz]
  · rw [if_neg hz]
    exact Int.tdiv_nonneg
      (mul_nonneg hq (slippageFactor_nonneg h0 h100)) (by norm_num)

/-! Helper facts for the layer models. -/

theorem mockRate_nonneg (f t : TokenKey) : 0 ≤ mockRate f t := by
  cases f <;> cases t <;> norm_num [mockRate]

theorem assignedNonces_eq_range (st : NonceMap) (l : List String) (a : String) :
    assignedNonces st l a = List.range' (st a) (countOcc a l) := by
  induction l generalizing st with
  | nil => rfl
  | cons b rest ih =>
    simp only [assignedNonces, reserveNonce, countOcc]
    by_cases hb : b = a
    · subst hb
      rw [if_pos rfl, if_pos rfl, ih]
      have hif : (if b = b then st b + 1 else st b) = st b + 1 := if_pos rfl
      rw [hif, Nat.add_comm 1 (countOcc b rest)]
      rfl
    · rw [if_neg hb, if_neg hb, ih]
      have hif : (if a = b then st b + 1 else st a) = st a :=
        if_neg (fun h => hb h.symm)
      rw [hif, Nat.zero_add]

theorem invalidAmount_one : invalidAmount ⟨"1", some 1⟩ = false := by
  have h1 : jsParse (1 : ℚ) = 1 := rd_one
  have h2 : ¬ ((1 : ℚ) ≤ 0) := by norm_num
  simp [invalidAmount, h1, h2]

theorem invalidAmount_empty : invalidAmount ⟨"", none⟩ = true := by decide

/-! Claim theorems. -/

/-- C1, counterexample: the swap page's quote computation is not pure integer
arithmetic.  For amount 0.1 WETH swapped to DAI (18 decimals), the page
computes 199400000000000005684 smallest units, while exact integer arithmetic
on the same inputs gives 0.1 * 2000 * 0.997 * 10^18 = 199400000000000000000:
the binary64 floating-point steps change the fee quantity. -/
theorem C1_counterexample :
    quoteOf (some (1 / 10 : ℚ)) TokenKey.WETH TokenKey.DAI =
        some 199400000000000005684 ∧
    specQuoteWei (1 / 10) TokenKey.WETH TokenKey.DAI = 199400000000000000000 ∧
    ((199400000000000005684 : ℤ) : ℚ) ≠ (199400000000000000000 : ℚ) :=
  ⟨quoteOf_tenth_WETH_DAI, specQuoteWei_tenth_WETH_DAI, by norm_num⟩

/-- C1, amended: all fee quantities produced by the swap page are nonnegative
integers in the token's smallest unit (bigint at the boundary), but the quote
and the slippage factor are computed with binary64 floating point rather than
pure integer arithmetic; only the final minimum-output scaling is exact
integer arithmetic. -/
theorem C1_quote_unsigned_integer :
    (∀ (a : ℚ) (f t : TokenKey) (n : ℤ), 0 ≤ a →
        quoteOf (some a) f t = some n → 0 ≤ n) ∧
    (∀ (q : ℤ) (d : ℚ), 0 ≤ q → 0 ≤ d → d ≤ 100 →
        0 ≤ minimumOut (some q) (some d) ∧
        minimumOut (some q) (some d) = if q = 0 then 0
          else (q * slippageFactor d).tdiv 10000) := by
  constructor
  · intro a f t n ha h
    by_cases hp : 0 < jsParse a
    · simp only [quoteOf, if_pos hp, Option.some.injEq] at h
      subst h
      have hv : (0 : ℚ) ≤
          dmul (dmul (jsParse a) (jsParse (mockRate f t))) (jsParse (997 / 1000)) := by
        apply roundDouble_nonneg
        apply mul_nonneg
        · apply roundDouble_nonneg
          apply mul_nonneg (le_of_lt hp)
          exact roundDouble_nonneg (mockRate_nonneg f t)
        · exact roundDouble_nonneg (by norm_num)
      apply Int.floor_nonneg.mpr
      have : (0 : ℚ) ≤
          dmul (dmul (jsParse a) (jsParse (mockRate f t))) (jsParse (997 / 1000)) *
            10 ^ (decimalsOf t) :=
        mul_nonneg hv (by positivity)
      linarith
    · simp only [quoteOf, if_neg hp] at h
      exact Option.noConfusion h
  · intro q d hq h0 h100
    exact ⟨minimumOut_nonneg hq h0 h100, rfl⟩

/-- C1, witness: the amended statement instantiated at amount 0.1 (WETH to
DAI) and at quote 10000 with slippage 0.5. -/
theorem C1_witness :
    (0 : ℤ) ≤ 199400000000000005684 ∧
    0 ≤ minimumOut (some 10000) (some (1 / 2)) :=
  ⟨C1_quote_unsigned_integer.1 (1 / 10) TokenKey.WETH TokenKey.DAI
      199400000000000005684 (by norm_num) quoteOf_tenth_WETH_DAI,
    (C1_quote_unsigned_integer.2 10000 (1 / 2) (by norm_num) (by norm_num)
      (by norm_num)).1⟩

/-- C2: any pre-broadcast failure (encoding rejection or simulation revert)
prevents the write from being sent: the submit pipeline broadcasts nothing
and returns the failure itself; in particular a simulation revert is
propagated as the revert reason instead of any numeric estimate. -/
theorem C2_preflight_failure_blocks_broadcast :
    (∀ (sim : CallDescriptor → SimOutcome) (balance : ℤ) (d : CallDescriptor)
        (e : PreflightError), preflight sim balance d = some e →
          (submitFlow sim balance d).1 = [] ∧
          (submitFlow sim balance d).2 = Except.error e) ∧
    (∀ (sim : CallDescriptor → SimOutcome) (balance : ℤ) (d : CallDescriptor)
        (r : String), isAddressLike d.target = true → d.value ≤ balance →
          sim d = SimOutcome.revert r →
          preflight sim balance d =
            some (PreflightError.simulationReverted r)) ∧
    (∀ (sim : CallDescriptor → SimOutcome) (d : CallDescriptor) (r : String),
        sim d = SimOutcome.revert r →
          feeEstimate sim d = Except.error r) := by
  refine ⟨?_, ?_, ?_⟩
  · intro sim balance d e h
    simp [submitFlow, h]
  · intro sim balance d r haddr hbal hsim
    unfold preflight
    rw [if_neg (by simp [haddr]), if_neg (not_lt.mpr hbal), hsim]
  · intro sim d r hsim
    unfold feeEstimate
    rw [hsim]

/-- C2, witness: a transfer whose simulation reverts with reason
"insufficient balance" is never broadcast, and the revert reason is returned. -/
theorem C2_witness :
    (submitFlow (fun _ => SimOutcome.revert "insufficient balance") 0
        sampleCall).1 = [] ∧
    (submitFlow (fun _ => SimOutcome.revert "insufficient balance") 0
        sampleCall).2 =
      Except.error (PreflightError.simulationReverted "insufficient balance") :=
  C2_preflight_failure_blocks_broadcast.1
    (fun _ => SimOutcome.revert "insufficient balance") 0 sampleCall
    (PreflightError.simulationReverted "insufficient balance")
    (C2_preflight_failure_blocks_broadcast.2.1
      (fun _ => SimOutcome.revert "insufficient balance") 0 sampleCall
      "insufficient balance" (by decide) (by decide) rfl)

/-- C3, counterexample: for a raw gas estimate of 1, the documented buffer
gasEstimate * 120n / 100n returns 1, which is not the raw estimate scaled by
a factor in the interval from 1.10 to 1.25: truncating bigint division
erases the buffer on very small estimates. -/
theorem C3_counterexample :
    gasLimitOf 1 = 1 ∧ ¬ bufferedInRange 1 (gasLimitOf 1) ∧
    feeEstimate (fun _ => SimOutcome.success 1) sampleCall = Except.ok 1 := by
  refine ⟨rfl, ?_, rfl⟩
  intro h
  exact absurd h.1 (by decide)

/-- C3, amended: the fee estimator first simulates the call (a revert
propagates the reason, a success yields the raw estimate) and then scales the
raw estimate by 120/100 in truncating bigint arithmetic; whenever the raw
estimate is at least 5 the returned limit lies within a factor of 1.10 to
1.25 of the raw estimate. -/
theorem C3_gas_buffer_range :
    (∀ (sim : CallDescriptor → SimOutcome) (d : CallDescriptor) (raw : ℕ),
        sim d = SimOutcome.success raw →
          feeEstimate sim d = Except.ok (gasLimitOf raw)) ∧
    (∀ (sim : CallDescriptor → SimOutcome) (d : CallDescriptor) (r : String),
        sim d = SimOutcome.revert r → feeEstimate sim d = Except.error r) ∧
    (∀ raw : ℕ, 5 ≤ raw → bufferedInRange raw (gasLimitOf raw)) := by
  refine ⟨?_, ?_, ?_⟩
  · intro sim d raw h
    unfold feeEstimate
    rw [h]
  · intro sim d r h
    unfold feeEstimate
    rw [h]
  · intro raw h5
    unfold bufferedInRange gasLimitOf
    rcases Nat.lt_or_ge raw 8 with h8 | h8
    · interval_cases raw <;> exact ⟨by norm_num, by norm_num⟩
    · have hmod := Nat.div_add_mod (raw * 120) 100
      have hlt : (raw * 120) % 100 < 100 := Nat.mod_lt _ (by norm_num)
      omega

/-- C3, witness: a raw estimate of 100 is buffered to the limit 120, which
lies inside the claimed factor interval. -/
theorem C3_witness :
    feeEstimate (fun _ => SimOutcome.success 100) sampleCall =
        Except.ok (gasLimitOf 100) ∧
    bufferedInRange 100 (gasLimitOf 100) :=
  ⟨C3_gas_buffer_range.1 (fun _ => SimOutcome.success 100) sampleCall 100 rfl,
    C3_gas_buffer_range.2.2 100 (by norm_num)⟩

/-- C4: with allowFailure set, batchRead reports every entry's outcome
independently — the result is ok (never a failure of the batch as a unit),
has the same length as the descriptor list, and its i-th entry is the success
value or error marker of the i-th descriptor's own outcome. -/
theorem C4_batch_partial_failure :
    ∀ (outcome : CallDescriptor → Except String ℤ) (ds : List CallDescriptor),
      ∃ rs, batchRead outcome true ds = Except.ok rs ∧
        rs.length = ds.length ∧
        ∀ i : ℕ, rs[i]? = ds[i]?.map (fun d =>
          match outcome d with
          | .ok v => CallResult.success v
          | .error e => CallResult.failure e) := by
  intro outcome ds
  refine ⟨ds.map (fun d => match outcome d with
    | .ok v => CallResult.success v
    | .error e => CallResult.failure e), ?_, ?_, ?_⟩
  · simp [batchRead]
  · exact List.length_map ds _
  · intro i
    exact List.getElem?_map _ ds i

/-- C5: nonce reservation is atomic per account, so under every interleaving
of concurrent submit calls the nonces handed to an account form the
contiguous range starting at that account's next nonce — no nonce is handed
out twice and no gap is introduced; in particular two concurrent submits for
the same account receive the consecutive distinct nonces n and n + 1. -/
theorem C5_nonce_reservation :
    ∀ (st : NonceMap) (l : List String) (a : String),
      assignedNonces st l a = List.range' (st a) (countOcc a l) ∧
      (assignedNonces st l a).Nodup ∧
      assignedNonces st [a, a] a = [st a, st a + 1] := by
  intro st l a
  refine ⟨assignedNonces_eq_range st l a, ?_, ?_⟩
  · rw [assignedNonces_eq_range st l a]
    exact List.nodup_range' _ _
  · rw [assignedNonces_eq_range st [a, a] a]
    simp [countOcc, List.range']

/-- C6: Finalized is an absorbing terminal state of the receipt watcher's
per-operation state machine: no transition leaves it, and any state reachable
from Finalized is Finalized itself. -/
theorem C6_finalized_terminal :
    ∀ (K : ℕ) (s : TxPhase),
      (¬ PhaseStep K TxPhase.finalized s) ∧
      (Relation.ReflTransGen (PhaseStep K) TxPhase.finalized s →
        s = TxPhase.finalized) := by
  intro K s
  constructor
  · intro h
    cases h
  · intro h
    induction h with
    | refl => rfl
    | tail hsteps hstep ih =>
      subst ih
      cases hstep

/-- C6, witness: with the recommended threshold of 12, no transition leaves
Finalized towards Submitted, and the reflexive reachability instance at
Finalized itself is absorbed. -/
theorem C6_witness :
    (¬ PhaseStep 12 TxPhase.finalized TxPhase.submitted) ∧
    TxPhase.finalized = TxPhase.finalized :=
  ⟨(C6_finalized_terminal 12 TxPhase.submitted).1,
    (C6_finalized_terminal 12 TxPhase.finalized).2 Relation.ReflTransGen.refl⟩

/-- C7: a read pinned to an explicit historical block height returns the same
value no matter when it is invoked (deterministic over deterministic state),
while reads against the latest tag are not deterministic: a world whose head
state changes between the two invocations yields different results. -/
theorem C7_pinned_reads_deterministic :
    (∀ (w : ChainWorld) (d : CallDescriptor) (h t₁ t₂ : ℕ),
        readAt w d (some h) t₁ = readAt w d (some h) t₂) ∧
    (∃ (w : ChainWorld) (d : CallDescriptor) (t₁ t₂ : ℕ),
        readAt w d none t₁ ≠ readAt w d none t₂) := by
  constructor
  · intro w d h t₁ t₂
    rfl
  · exact ⟨fun h _ => (h : ℤ), sampleCall, 0, 1, by decide⟩

/-- C8: neither swap page variant ever broadcasts a transaction.  The
educational page's click handler only sets a warning status and emits no
effect; the demo page's handleSwap leaves every field except status
unchanged, sets an error status and stops for an empty or non-positive
amount, and otherwise sets an info status and schedules the success status
2000 milliseconds later — in all cases without invoking writeContract or
sendTransaction. -/
theorem C8_swap_handlers_never_broadcast :
    (∀ st : SwapPageState,
        (handleSwapClick st).1 = { st with status := some educationalWarning } ∧
        (handleSwapClick st).2 = []) ∧
    (∀ st : SwapDemoState,
        ((handleSwap st).2.all fun e => ! e.isBroadcast) = true ∧
        (handleSwap st).1.fromToken = st.fromToken ∧
        (handleSwap st).1.toToken = st.toToken ∧
        (handleSwap st).1.amount = st.amount ∧
        (invalidAmount st.amount = true →
          (handleSwap st).1.status =
              some ⟨StatusType.error, "Ingresa una cantidad válida"⟩ ∧
            (handleSwap st).2 = []) ∧
        (invalidAmount st.amount = false →
          (handleSwap st).1.status = some ⟨StatusType.info,
              "🔄 Preparando swap... (Esta es una demostración)"⟩ ∧
            (handleSwap st).2 = [SwapEffect.scheduleStatus 2000
              ⟨StatusType.success, "✅ Swap simulado exitosamente: " ++
                st.amount.raw ++ " " ++ st.fromToken ++ " → " ++ st.toToken⟩])) := by
  constructor
  · intro st
    exact ⟨rfl, rfl⟩
  · intro st
    by_cases hv : invalidAmount st.amount
    · simp [handleSwap, hv, SwapEffect.isBroadcast]
    · simp [handleSwap, hv, SwapEffect.isBroadcast]

/-- C8, witness: the demo handler on an empty amount reports the error status
without effects, and on the amount 1 schedules only the delayed success
status; neither run broadcasts. -/
theorem C8_witness :
    ((handleSwap ⟨"ETH", "USDC", ⟨"", none⟩, none⟩).2 = []) ∧
    ((handleSwap ⟨"ETH", "USDC", ⟨"1", some 1⟩, none⟩).2 =
      [SwapEffect.scheduleStatus 2000
        ⟨StatusType.success, "✅ Swap simulado exitosamente: " ++
          "1" ++ " " ++ "ETH" ++ " → " ++ "USDC"⟩]) :=
  ⟨((C8_swap_handlers_never_broadcast.2
      ⟨"ETH", "USDC", ⟨"", none⟩, none⟩).2.2.2.2.1 invalidAmount_empty).2,
    ((C8_swap_handlers_never_broadcast.2
      ⟨"ETH", "USDC", ⟨"1", some 1⟩, none⟩).2.2.2.2.2 invalidAmount_one).2⟩

/-- C9, counterexample: for quote 10000 and slippage string 0.1, the page
computes minimumOut 9990, while the claim's formula
(q * floor((100 - s) * 100)) / 10000, taken with exact arithmetic on the
parsed number s, yields 9989: the page's factor is computed in binary64
double precision, which here rounds across the integer boundary. -/
theorem C9_counterexample :
    minimumOut (some 10000) (some (1 / 10)) = 9990 ∧
    specMinimumOut 10000 (1 / 10) = 9989 ∧
    (9990 : ℤ) ≠ 9989 := by
  refine ⟨?_, ?_, by decide⟩
  · show (if (10000 : ℤ) = 0 then 0
      else ((10000 : ℤ) * slippageFactor (1 / 10)).tdiv 10000) = 9990
    rw [if_neg (by decide), slippageFactor_tenth]
    decide
  · unfold specMinimumOut
    rw [specFactor_tenth]
    decide

/-- C9, amended: for a nonnegative quote q and a slippage string with decimal
value between 0 and 100, minimumOut equals (q * f) / 10000 in truncating
bigint division where f is the page's binary64-computed slippage factor
(which can differ by one from the exact floor((100 - s) * 100)), and
0 <= minimumOut <= q holds; minimumOut is 0 when the quote is null or the
slippage field is empty. -/
theorem C9_minimum_out_bounds :
    ∀ (q : ℤ) (d : ℚ), 0 ≤ q → 0 ≤ d → d ≤ 100 →
      minimumOut (some q) (some d) =
          (if q = 0 then 0 else (q * slippageFactor d).tdiv 10000) ∧
      0 ≤ minimumOut (some q) (some d) ∧
      minimumOut (some q) (some d) ≤ q ∧
      minimumOut none (some d) = 0 ∧
      minimumOut (some q) none = 0 := by
  intro q d hq h0 h100
  exact ⟨rfl, minimumOut_nonneg hq h0 h100, minimumOut_le_quote hq h0 h100,
    rfl, rfl⟩

/-- C9, witness: the amended statement instantiated at quote 10000 and
slippage 0.5. -/
theorem C9_witness :
    0 ≤ minimumOut (some 10000) (some (1 / 2)) ∧
    minimumOut (some 10000) (some (1 / 2)) ≤ 10000 ∧
    minimumOut none (some (1 / 2)) = 0 :=
  ⟨(C9_minimum_out_bounds 10000 (1 / 2) (by norm_num) (by norm_num)
      (by norm_num)).2.1,
    (C9_minimum_out_bounds 10000 (1 / 2) (by norm_num) (by norm_num)
      (by norm_num)).2.2.1,
    (C9_minimum_out_bounds 10000 (1 / 2) (by norm_num) (by norm_num)
      (by norm_num)).2.2.2.1⟩

/-- C10: useBase returns the context value exactly when a BaseProvider is
mounted above the caller (the context is defined), and throws the Error
"useBase must be used within a BaseProvider" precisely when the context value
is undefined. -/
theorem C10_useBase_provider_required :
    (∀ v : BaseContextType, useBase (some v) = Except.ok v) ∧
    (useBase (none : Option BaseContextType) =
      Except.error "useBase must be used within a BaseProvider") ∧
    (∀ ctx : Option BaseContextType,
      useBase ctx = Except.error "useBase must be used within a BaseProvider"
        ↔ ctx = none) := by
  refine ⟨fun v => rfl, rfl, ?_⟩
  intro ctx
  cases ctx with
  | none => simp [useBase]
  | some v => simp [useBase]

/-- C10, witness: a concrete context value is returned unchanged, and the
error characterisation instantiated at none. -/
theorem C10_witness :
    useBase (some (⟨none, false⟩ : BaseContextType)) =
        Except.ok (⟨none, false⟩ : BaseContextType) ∧
    (useBase (none : Option BaseContextType) =
        Except.error "useBase must be used within a BaseProvider" ↔
      (none : Option BaseContextType) = none) :=
  ⟨C10_useBase_provider_required.1 ⟨none, false⟩,
    C10_useBase_provider_required.2.2 none⟩
